import Mathlib

/-!
Verification development for the reorder-driven tracer time-of-flight (TOF)
transport engine of opm-core.

The embedding models:
* `solveSingleCell`, `solveMultiCell`, `multidimUpwindTof` and `solveTof`
  from `opm/core/transport/reorder/TransportModelTracerTof.cpp`;
* `make_upwind_graph` and `compute_reorder_sequence_graph`
  from `opm/core/transport/reorder/reordersequence.cpp`.

Doubles are modelled as rationals (`ℚ`); grid arrays (read-only inputs)
are modelled as functions from indices, and the two mutated vectors
(`tof`, `face_tof_`) as lists.  Division by zero in `ℚ` yields `0` where
C++ IEEE arithmetic would yield NaN/Inf; every theorem touching a division
carries hypotheses keeping the divisor nonzero.
-/

namespace Opm

/-- The read-only grid view (`UnstructuredGrid`): cell/face counts, the
CSR cell-to-face adjacency (`cell_facepos`/`cell_faces`), the two cells of
each face (`face_cells`, `-1` = exterior), and the CSR face-to-node
adjacency (`face_nodepos`/`face_nodes`). -/
structure UnstructuredGrid where
  number_of_cells : ℕ
  number_of_faces : ℕ
  dimensions : ℕ
  cell_facepos : ℕ → ℕ
  cell_faces : ℕ → ℕ
  face_cells : ℕ → ℤ
  face_nodepos : ℕ → ℕ
  face_nodes : ℕ → ℕ

/-- The half-face index range of a cell: indices
`cell_facepos[cell] .. cell_facepos[cell+1]` into `cell_faces`
(the loop bounds of the face loops in the C++ code). -/
def cellHalfFaces (g : UnstructuredGrid) (cell : ℕ) : List ℕ :=
  List.range' (g.cell_facepos cell) (g.cell_facepos (cell + 1) - g.cell_facepos cell)

/-- The faces of a cell, in the order listed by `cell_faces`. -/
def cellFaceList (g : UnstructuredGrid) (cell : ℕ) : List ℕ :=
  (cellHalfFaces g cell).map g.cell_faces

/-- The flux over face `f` seen from `cell`:
`darcyflux[f]` if `cell == face_cells[2f]`, else `-darcyflux[f]`
(sign logic of `solveSingleCell` and `make_upwind_graph`). -/
def cellFaceFlux (g : UnstructuredGrid) (flux : ℕ → ℚ) (cell f : ℕ) : ℚ :=
  if (cell : ℤ) = g.face_cells (2 * f) then flux f else -(flux f)

/-- The cell on the other side of face `f` from `cell`
(`other` in `solveSingleCell`); `-1` when exterior. -/
def cellFaceOther (g : UnstructuredGrid) (cell f : ℕ) : ℤ :=
  if (cell : ℤ) = g.face_cells (2 * f) then g.face_cells (2 * f + 1)
  else g.face_cells (2 * f)

/-- The nodes bounding face `f`, from the CSR arrays
`face_nodepos`/`face_nodes`. -/
def faceNodeList (g : UnstructuredGrid) (f : ℕ) : List ℕ :=
  (List.range' (g.face_nodepos f) (g.face_nodepos (f + 1) - g.face_nodepos f)).map g.face_nodes

/-- Number of vertices two faces have in common, counted as in the C++
(`std::count` of each node of `f` in the node list of `face`). -/
def numCommonNodes (g : UnstructuredGrid) (face f : ℕ) : ℕ :=
  ((faceNodeList g f).map (fun n => (faceNodeList g face).count n)).sum

/-- The adjacent faces of `face` on cell `upwind_cell`: every other face
of the cell sharing exactly `dimensions - 1` boundary nodes with `face`
(the `adj_faces_` list built by `multidimUpwindTof`). -/
def adjFaces (g : UnstructuredGrid) (face upwind_cell : ℕ) : List ℕ :=
  (cellFaceList g upwind_cell).filter
    (fun f => f ≠ face ∧ numCommonNodes g face f = g.dimensions - 1)

/-- The mutable solver state: the `tof` output vector and the
`face_tof_` auxiliary vector. -/
structure TofState where
  tof : List ℚ
  face_tof : List ℚ
deriving DecidableEq, Repr

/-- `TransportModelTracerTof::multidimUpwindTof(face, upwind_cell)`:
collect the adjacent faces, then accumulate
`(1 - omega) * tof[upwind_cell] + omega * face_tof[f]` over them with
`omega = omega_star / (1 + omega_star)` for inflowing faces
(`omega_star > 0`) and `omega = 0` otherwise, where
`omega_star = influx_f / |darcyflux[face]|`; finally divide by the
number of adjacent faces (simple average). -/
def multidimUpwindTof (g : UnstructuredGrid) (flux : ℕ → ℚ) (st : TofState)
    (face upwind_cell : ℕ) : ℚ :=
  let adj := adjFaces g face upwind_cell
  let flux_face : ℚ := |flux face|
  let s := adj.foldl
    (fun acc f =>
      let influx_f : ℚ :=
        if g.face_cells (2 * f) = (upwind_cell : ℤ) then -(flux f) else flux f
      let omega_star := influx_f / flux_face
      let omega : ℚ := if 0 < omega_star then omega_star / (1 + omega_star) else 0
      acc + ((1 - omega) * st.tof.getD upwind_cell 0 + omega * st.face_tof.getD f 0))
    0
  s / (adj.length : ℚ)

/-- One iteration of the face loop of `solveSingleCell`: the accumulator
carries `(upwind_term, downwind_flux, face_tof_)`.  Boundary faces
(`other == -1`) are skipped; an inflow face (`flux < 0`) contributes to
`upwind_term` (via `multidimUpwindTof` — stored into `face_tof_` first —
when multidim upwind is enabled, else via the neighbour's `tof`); an
outflow face adds its flux to `downwind_flux`. -/
def singleCellFaceStep (g : UnstructuredGrid) (flux : ℕ → ℚ) (tof : List ℚ)
    (multidim : Bool) (cell : ℕ) (acc : ℚ × ℚ × List ℚ) (hf : ℕ) : ℚ × ℚ × List ℚ :=
  let f := g.cell_faces hf
  let cflux := cellFaceFlux g flux cell f
  let other := cellFaceOther g cell f
  if other ≠ -1 then
    if cflux < 0 then
      if multidim then
        let ftof := multidimUpwindTof g flux ⟨tof, acc.2.2⟩ f other.toNat
        (acc.1 + cflux * ftof, acc.2.1, acc.2.2.set f ftof)
      else
        (acc.1 + cflux * tof.getD other.toNat 0, acc.2.1, acc.2.2)
    else
      (acc.1, acc.2.1 + cflux, acc.2.2)
  else acc

/-- `TransportModelTracerTof::solveSingleCell(cell)`: start from
`upwind_term = 0`, `downwind_flux = max(-source[cell], 0)`, loop over the
cell's half-faces, then store
`tof[cell] = (porevolume[cell] - upwind_term) / downwind_flux`. -/
def solveSingleCell (g : UnstructuredGrid) (flux pv src : ℕ → ℚ)
    (multidim : Bool) (st : TofState) (cell : ℕ) : TofState :=
  let init : ℚ × ℚ × List ℚ := (0, max (-(src cell)) 0, st.face_tof)
  let r := (cellHalfFaces g cell).foldl (singleCellFaceStep g flux st.tof multidim cell) init
  ⟨st.tof.set cell ((pv cell - r.1) / r.2.1), r.2.2⟩

/-- The indexed loop body of `solveMultiCell`: process
`cells[i], cells[i+1], ...` while `k` cells remain
(`for (int i = 0; i < num_cells; ++i) solveSingleCell(cells[i]);`). -/
def solveMultiCellLoop (g : UnstructuredGrid) (flux pv src : ℕ → ℚ)
    (multidim : Bool) (cells : List ℕ) : ℕ → ℕ → TofState → TofState
  | _, 0, st => st
  | i, k + 1, st =>
    solveMultiCellLoop g flux pv src multidim cells (i + 1) k
      (solveSingleCell g flux pv src multidim st (cells.getD i 0))

/-- `TransportModelTracerTof::solveMultiCell(num_cells, cells)`: apply
`solveSingleCell` to `cells[0] .. cells[num_cells-1]` in index order
(the diagnostic print is ignored). -/
def solveMultiCell (g : UnstructuredGrid) (flux pv src : ℕ → ℚ)
    (multidim : Bool) (cells : List ℕ) (st : TofState) : TofState :=
  solveMultiCellLoop g flux pv src multidim cells 0 cells.length st

/-- A face is a boundary face when either adjacent cell index is `-1`
(the `boundaryface` test of `make_upwind_graph`). -/
def boundaryFace (g : UnstructuredGrid) (f : ℕ) : Prop :=
  g.face_cells (2 * f) = -1 ∨ g.face_cells (2 * f + 1) = -1

instance (g : UnstructuredGrid) (f : ℕ) : Decidable (boundaryFace g f) := by
  unfold boundaryFace; infer_instance

/-- First pass of `make_upwind_graph`: for each cell `i` and each of its
faces `f`, when the flux seen from `i` is positive, record `i` as the
upwind cell of `f` in the work array.  `work0` is the incoming contents
of the caller-provided work array. -/
def upwindWorkArray (g : UnstructuredGrid) (flux : ℕ → ℚ) (work0 : ℕ → ℤ) : ℕ → ℤ :=
  (List.range g.number_of_cells).foldl
    (fun w i =>
      (cellFaceList g i).foldl
        (fun w2 f =>
          if 0 < cellFaceFlux g flux i f then Function.update w2 f (i : ℤ) else w2)
        w)
    work0

/-- Second pass of `make_upwind_graph`, one CSR row: for cell `i`, emit
`work[f]` for every face of `i` that is not a boundary face and whose
flux seen from `i` is negative. -/
def upwindGraphRow (g : UnstructuredGrid) (flux : ℕ → ℚ) (work : ℕ → ℤ) (i : ℕ) :
    List ℤ :=
  (cellFaceList g i).filterMap
    (fun f =>
      if boundaryFace g f then none
      else if cellFaceFlux g flux i f < 0 then some (work f) else none)

/-- `make_upwind_graph`: the adjacency of the upwind graph, given as the
list of CSR rows (`ja` split at the `ia` offsets): row `i` holds the
upwind donor cells of cell `i`. -/
def make_upwind_graph (g : UnstructuredGrid) (flux : ℕ → ℚ) (work0 : ℕ → ℤ) :
    List (List ℤ) :=
  let work := upwindWorkArray g flux work0
  (List.range g.number_of_cells).map (upwindGraphRow g flux work)

/-- Dependency adjacency function read off the upwind-graph rows. -/
def adjOf (rows : List (List ℤ)) : ℕ → List ℕ :=
  fun i => (rows.getD i []).map Int.toNat

/-- Fuel-bounded reachability along `adj` (used by the spec-modelled
component decomposer): `reachB adj fuel i j` holds when a directed path
of at most `fuel` edges leads from `i` to `j`. -/
def reachB (adj : ℕ → List ℕ) : ℕ → ℕ → ℕ → Bool
  | 0, i, j => i == j
  | fuel + 1, i, j => i == j || (adj i).any (fun k => reachB adj fuel k j)

/-- Mutual (fuel-bounded) reachability: `i` and `j` lie on a common
directed cycle, or are equal. -/
def mutualReachB (adj : ℕ → List ℕ) (fuel i j : ℕ) : Bool :=
  reachB adj fuel i j && reachB adj fuel j i

/-- Whether `c` is already listed in one of the components. -/
def assignedIn (comps : List (List ℕ)) (c : ℕ) : Bool :=
  comps.any (fun comp => comp.contains c)

/-- One step of the component grouping: a cell already assigned is
skipped; otherwise it opens the component of all unassigned cells
mutually reachable with it. -/
def sccStep (nc : ℕ) (adj : ℕ → List ℕ) (comps : List (List ℕ)) (c : ℕ) :
    List (List ℕ) :=
  if assignedIn comps c then comps
  else
    comps ++ [(List.range nc).filter
      (fun j => !assignedIn comps j && mutualReachB adj nc c j)]

/-- Modelled from the spec: strongly-connected-component membership of the
decomposer (`tarjan`, whose source is not part of this tree).  Per §4.2 the
decomposer groups the cells of the upwind graph into their strongly
connected components; here each cell not yet assigned opens the component
of all unassigned cells mutually reachable with it. -/
def sccComponents (nc : ℕ) (adj : ℕ → List ℕ) : List (List ℕ) :=
  (List.range nc).foldl (sccStep nc adj) []

/-- Number of cells on which a cell transitively depends (its fuel-bounded
reachable set in the dependency direction), used as the topological sort
key of the spec-modelled decomposer. -/
def depSize (nc : ℕ) (adj : ℕ → List ℕ) (i : ℕ) : ℕ :=
  ((List.range nc).filter (fun j => reachB adj nc i j)).length

/-- Insertion step of the component ordering. -/
def insertByKey (key : List ℕ → ℕ) (c : List ℕ) : List (List ℕ) → List (List ℕ)
  | [] => [c]
  | d :: ds => if key c < key d then c :: d :: ds else d :: insertByKey key c ds

/-- Insertion sort of components by key. -/
def sortByKey (key : List ℕ → ℕ) : List (List ℕ) → List (List ℕ)
  | [] => []
  | c :: cs => insertByKey key c (sortByKey key cs)

/-- Modelled from the spec: the ordered component sequence of the
decomposer (`tarjan`, not part of this tree).  Per §4.2 components are
emitted so that a component is processed only after the components it
depends on; sorting by the transitive dependency count of a member
realises such an order. -/
def orderedComponents (nc : ℕ) (adj : ℕ → List ℕ) : List (List ℕ) :=
  sortByKey (fun comp => depSize nc adj (comp.headD 0)) (sccComponents nc adj)

/-- `compute_reorder_sequence_graph`: build the upwind graph, then hand it
to the (spec-modelled) decomposer; the result is the component sequence.
The caller (`compute_sequence`) provides a zero-initialised work array. -/
def compute_reorder_sequence_graph (g : UnstructuredGrid) (flux : ℕ → ℚ)
    (work0 : ℕ → ℤ) : List (List ℕ) :=
  let rows := make_upwind_graph g flux work0
  orderedComponents g.number_of_cells (adjOf rows)

/-- `compute_sequence`: as `compute_reorder_sequence_graph` with the
work array freshly value-initialised (`std::vector<int> work(sz)`). -/
def compute_sequence (g : UnstructuredGrid) (flux : ℕ → ℚ) : List (List ℕ) :=
  compute_reorder_sequence_graph g flux (fun _ => 0)

/-- Modelled from the spec: the reorder driver (`reorderAndTransport` of
`TransportModelInterface`, not part of this tree).  Per §4.3, iterate the
components in the computed order; a singleton component goes to
`solveSingleCell`, a larger one to `solveMultiCell`. -/
def reorderAndTransport (g : UnstructuredGrid) (flux pv src : ℕ → ℚ)
    (multidim : Bool) (comps : List (List ℕ)) (st : TofState) : TofState :=
  comps.foldl
    (fun s comp =>
      match comp with
      | [c] => solveSingleCell g flux pv src multidim s c
      | cs => solveMultiCell g flux pv src multidim cs s)
    st

/-- `v.resize(n); fill(v, 0)`: the vector is truncated or zero-extended to
length `n`, then overwritten with zeros. -/
def resizeFill (prior : List ℚ) (n : ℕ) : List ℚ :=
  ((prior ++ List.replicate (n - prior.length) 0).take n).map (fun _ => 0)

/-- `*std::max_element(l.begin(), l.end())` for a nonempty list (largest
element in the order of `ℚ`, not largest magnitude). -/
def maxElemOf : List ℚ → ℚ
  | [] => 0
  | x :: xs => xs.foldl max x

/-- The source array restricted to the grid's cells. -/
def sourceList (g : UnstructuredGrid) (src : ℕ → ℚ) : List ℚ :=
  (List.range g.number_of_cells).map src

/-- `TransportModelTracerTof::solveTof` (debug semantics, the sanity check
compiled in): accumulate the sources and throw when
`|cum_src| > max_element(source) * 1e-2`; otherwise resize-and-zero the
`tof` vector (and the `face_tof_` vector when multidim upwind is on),
then run the reorder driver.  `prior_tof`/`prior_ftof` are the contents
the two member vectors carry into the call. -/
def solveTof (g : UnstructuredGrid) (flux pv src : ℕ → ℚ) (multidim : Bool)
    (prior_tof prior_ftof : List ℚ) : Except String (List ℚ) :=
  let srcs := sourceList g src
  let cum_src := srcs.sum
  if |cum_src| > maxElemOf srcs * (1 / 100) then
    Except.error "Sources do not sum to zero"
  else
    let tof0 := resizeFill prior_tof g.number_of_cells
    let ftof0 := if multidim then resizeFill prior_ftof g.number_of_faces else prior_ftof
    let comps := compute_sequence g flux
    Except.ok (reorderAndTransport g flux pv src multidim comps ⟨tof0, ftof0⟩).tof

/-- Decidable equality on `Except`, for evaluating `solveTof` results. -/
instance {ε α : Type} [DecidableEq ε] [DecidableEq α] : DecidableEq (Except ε α) := fun x y =>
  match x, y with
  | Except.error a, Except.error b =>
    if h : a = b then isTrue (by rw [h])
    else isFalse (fun hh => h (Except.error.inj hh))
  | Except.error _, Except.ok _ => isFalse (fun hh => Except.noConfusion hh)
  | Except.ok _, Except.error _ => isFalse (fun hh => Except.noConfusion hh)
  | Except.ok a, Except.ok b =>
    if h : a = b then isTrue (by rw [h])
    else isFalse (fun hh => h (Except.ok.inj hh))

/-! ### Concrete grids used in tests and witnesses -/

/-- The 3-cell chain grid of the closed-form check: cells `A = 0`,
`B = 1`, `C = 2`; interior face `0` joins `A`-`B`, interior face `1`
joins `B`-`C`, boundary face `2` is the exterior outflow of `C`. -/
def chain3 : UnstructuredGrid where
  number_of_cells := 3
  number_of_faces := 3
  dimensions := 3
  cell_facepos := fun i => [0, 1, 3, 5].getD i 5
  cell_faces := fun j => [0, 0, 1, 1, 2].getD j 0
  face_cells := fun k => [0, 1, 1, 2, 2, -1].getD k (-1)
  face_nodepos := fun _ => 0
  face_nodes := fun _ => 0

/-- Flux `1.0` on every face of `chain3`. -/
def chain3Flux : ℕ → ℚ := fun _ => 1

/-- Pore volume `[1, 1, 1]` on `chain3`. -/
def chain3Pv : ℕ → ℚ := fun _ => 1

/-- Source `[1, 0, -1]` on `chain3`. -/
def chain3Src : ℕ → ℚ := fun i => if i = 0 then 1 else if i = 2 then -1 else 0

/-! ### C1: the closed-form 3-cell check -/

attribute [local semireducible] Rat.add Rat.sub Rat.mul Rat.inv in
/-- C1 (counterexample): on the 3-cell chain `{A → B, B → C, C exterior}`
with flux `1.0`, pore volume `[1,1,1]` and source `[1,0,-1]`, `solveTof`
does not compute `[0, 1, 2]`. -/
theorem chain3_solveTof_ne_claimed :
    solveTof chain3 chain3Flux chain3Pv chain3Src false [] [] ≠
      Except.ok [0, 1, 2] := by decide

attribute [local semireducible] Rat.add Rat.sub Rat.mul Rat.inv in
/-- C1 (amended): on the 3-cell chain the solver computes
`tof = [1, 2, 3]`: each cell's time of flight includes the traversal of
its own pore volume, so the source cell gets `pv/flux = 1`, not `0`. -/
theorem chain3_solveTof_eq :
    solveTof chain3 chain3Flux chain3Pv chain3Src false [] [] =
      Except.ok [1, 2, 3] := by decide

/-! ### C4: the source-balance sanity check -/

/-- Largest single source magnitude (the reference value the spec's
tolerance sentence describes; the code uses `maxElemOf` instead). -/
def maxAbsElemOf : List ℚ → ℚ
  | [] => 0
  | x :: xs => xs.foldl (fun a b => max a |b|) |x|

/-- Source array `[-2, 1, 49/50]`: sums to `-1/50`, which is exactly 1% of
the largest magnitude (2) but more than 1% of the largest element (1). -/
def srcC4 : ℕ → ℚ := fun i => if i = 0 then -2 else if i = 1 then 1 else
  if i = 2 then 49 / 50 else 0

attribute [local semireducible] Rat.add Rat.sub Rat.mul Rat.inv in
/-- C4 (counterexample): for the source `[-2, 1, 49/50]` the cumulative
source (`-1/50`) does not exceed 1% of the largest single source
magnitude (`2 * 1/100 = 1/50`), yet `solveTof` reports the fatal input
error: the code compares against the largest signed element (`1`), not
the largest magnitude. -/
theorem solveTof_source_check_magnitude_cex :
    solveTof chain3 chain3Flux chain3Pv srcC4 false [] [] =
        Except.error "Sources do not sum to zero" ∧
      ¬ |(sourceList chain3 srcC4).sum| >
          maxAbsElemOf (sourceList chain3 srcC4) * (1 / 100) := by decide

/-- C4 (amended): `solveTof` reports the fatal error — returning before
any TOF value is computed — exactly when the cumulative source exceeds
1% of the largest single source element (`*std::max_element`, the signed
maximum, not the largest magnitude); inputs within that tolerance raise
no error. -/
theorem solveTof_source_check (g : UnstructuredGrid) (flux pv src : ℕ → ℚ)
    (multidim : Bool) (pt pf : List ℚ) :
    (∃ e, solveTof g flux pv src multidim pt pf = Except.error e) ↔
      |(sourceList g src).sum| > maxElemOf (sourceList g src) * (1 / 100) := by
  simp only [solveTof]
  split_ifs with hc
  · exact iff_of_true ⟨_, rfl⟩ hc
  · exact iff_of_false (by rintro ⟨e, he⟩; exact he) hc

/-! ### C5: the multi-cell pass -/

/-- The loop of `solveMultiCell` from index `i` with `k` iterations left
folds `solveSingleCell` over the corresponding slice of `cells`. -/
theorem solveMultiCellLoop_foldl (g : UnstructuredGrid) (flux pv src : ℕ → ℚ)
    (multidim : Bool) (cells : List ℕ) :
    ∀ (k i : ℕ) (st : TofState), i + k ≤ cells.length →
      solveMultiCellLoop g flux pv src multidim cells i k st =
        ((cells.drop i).take k).foldl (solveSingleCell g flux pv src multidim) st := by
  intro k
  induction k with
  | zero => intro i st _; simp [solveMultiCellLoop]
  | succ k ih =>
    intro i st h
    have hi : i < cells.length := by omega
    have hdrop : cells.drop i = cells[i] :: cells.drop (i + 1) :=
      List.drop_eq_getElem_cons hi
    have hgetD : cells.getD i 0 = cells[i] := by
      simp [List.getD_eq_getElem?_getD, List.getElem?_eq_getElem hi]
    rw [solveMultiCellLoop, hdrop, List.take_succ_cons, List.foldl_cons, hgetD,
      ih (i + 1) _ (by omega)]

/-- C5: `solveMultiCell` applies the single-cell update exactly once to
each listed cell, in list order, starting from whatever TOF values the
state currently stores — a single left fold of `solveSingleCell` over the
component's cell list, with no iteration to convergence. -/
theorem solveMultiCell_foldl (g : UnstructuredGrid) (flux pv src : ℕ → ℚ)
    (multidim : Bool) (cells : List ℕ) (st : TofState) :
    solveMultiCell g flux pv src multidim cells st =
      cells.foldl (solveSingleCell g flux pv src multidim) st := by
  rw [solveMultiCell, solveMultiCellLoop_foldl g flux pv src multidim cells cells.length 0 st
    (by omega)]
  simp

/-! ### C7: determinism and independence from prior vector contents -/

/-- Resizing then zero-filling erases the prior contents of a vector. -/
theorem resizeFill_eq_replicate (p : List ℚ) (n : ℕ) :
    resizeFill p n = List.replicate n 0 := by
  unfold resizeFill
  rw [List.map_const']
  congr 1
  simp only [List.length_take, List.length_append, List.length_replicate]
  omega

/-- With multidim upwind disabled, one face-loop step leaves the
`face_tof_` component untouched and computes the flux terms without
reading it. -/
theorem singleCellFaceStep_false (g : UnstructuredGrid) (flux : ℕ → ℚ) (tof : List ℚ)
    (cell : ℕ) (u d : ℚ) (ft ft2 : List ℚ) (hf : ℕ) :
    singleCellFaceStep g flux tof false cell (u, d, ft) hf =
      ((singleCellFaceStep g flux tof false cell (u, d, ft2) hf).1,
       (singleCellFaceStep g flux tof false cell (u, d, ft2) hf).2.1, ft) := by
  simp only [singleCellFaceStep]
  split_ifs <;> first | rfl | exact (by assumption : False).elim

/-- With multidim upwind disabled, the whole face loop leaves `face_tof_`
untouched and its flux terms do not depend on it. -/
theorem singleCellFold_false (g : UnstructuredGrid) (flux : ℕ → ℚ) (tof : List ℚ)
    (cell : ℕ) (l : List ℕ) :
    ∀ (u d : ℚ) (ft ft2 : List ℚ),
      l.foldl (singleCellFaceStep g flux tof false cell) (u, d, ft) =
        ((l.foldl (singleCellFaceStep g flux tof false cell) (u, d, ft2)).1,
         (l.foldl (singleCellFaceStep g flux tof false cell) (u, d, ft2)).2.1, ft) := by
  induction l with
  | nil => intro u d ft ft2; rfl
  | cons a l ih =>
    intro u d ft ft2
    rw [List.foldl_cons, List.foldl_cons,
      singleCellFaceStep_false g flux tof cell u d ft ft2 a,
      ih (singleCellFaceStep g flux tof false cell (u, d, ft2) a).1
        (singleCellFaceStep g flux tof false cell (u, d, ft2) a).2.1 ft
        (singleCellFaceStep g flux tof false cell (u, d, ft2) a).2.2]

/-- With multidim upwind disabled, the single-cell update writes the same
TOF value whenever the TOF vectors agree, and never touches `face_tof_`. -/
theorem solveSingleCell_false_tof (g : UnstructuredGrid) (flux pv src : ℕ → ℚ)
    (st1 st2 : TofState) (c : ℕ) (h : st1.tof = st2.tof) :
    (solveSingleCell g flux pv src false st1 c).tof =
        (solveSingleCell g flux pv src false st2 c).tof ∧
      (solveSingleCell g flux pv src false st1 c).face_tof = st1.face_tof := by
  simp only [solveSingleCell, h]
  rw [singleCellFold_false g flux st2.tof c (cellHalfFaces g c) 0 (max (-(src c)) 0)
    st1.face_tof st2.face_tof]
  exact ⟨rfl, rfl⟩

/-- With multidim upwind disabled, folding the single-cell update over any
cell list preserves agreement of the TOF vectors. -/
theorem foldlCells_false_tof (g : UnstructuredGrid) (flux pv src : ℕ → ℚ)
    (cells : List ℕ) :
    ∀ (st1 st2 : TofState), st1.tof = st2.tof →
      (cells.foldl (solveSingleCell g flux pv src false) st1).tof =
        (cells.foldl (solveSingleCell g flux pv src false) st2).tof := by
  induction cells with
  | nil => intro st1 st2 h; exact h
  | cons c cells ih =>
    intro st1 st2 h
    exact ih _ _ (solveSingleCell_false_tof g flux pv src st1 st2 c h).1

/-- With multidim upwind disabled, the multi-cell pass preserves agreement
of the TOF vectors. -/
theorem solveMultiCell_false_tof (g : UnstructuredGrid) (flux pv src : ℕ → ℚ)
    (cells : List ℕ) (st1 st2 : TofState) (h : st1.tof = st2.tof) :
    (solveMultiCell g flux pv src false cells st1).tof =
      (solveMultiCell g flux pv src false cells st2).tof := by
  unfold solveMultiCell
  rw [solveMultiCellLoop_foldl g flux pv src false cells cells.length 0 st1 (by omega),
    solveMultiCellLoop_foldl g flux pv src false cells cells.length 0 st2 (by omega)]
  simp only [List.drop_zero, List.take_length]
  exact foldlCells_false_tof g flux pv src cells st1 st2 h

/-- With multidim upwind disabled, the reorder driver's TOF output depends
only on the TOF component of the starting state. -/
theorem reorderAndTransport_false_tof (g : UnstructuredGrid) (flux pv src : ℕ → ℚ)
    (comps : List (List ℕ)) :
    ∀ (st1 st2 : TofState), st1.tof = st2.tof →
      (reorderAndTransport g flux pv src false comps st1).tof =
        (reorderAndTransport g flux pv src false comps st2).tof := by
  induction comps with
  | nil => intro st1 st2 h; exact h
  | cons comp comps ih =>
    intro st1 st2 h
    simp only [reorderAndTransport, List.foldl_cons]
    match comp with
    | [c] =>
      exact ih _ _ (solveSingleCell_false_tof g flux pv src st1 st2 c h).1
    | [] =>
      exact ih _ _ (solveMultiCell_false_tof g flux pv src [] st1 st2 h)
    | c1 :: c2 :: cs =>
      exact ih _ _ (solveMultiCell_false_tof g flux pv src (c1 :: c2 :: cs) st1 st2 h)

/-- C7: two invocations of `solveTof` with identical grid, flux, pore
volume and source inputs produce the same TOF output, whatever the two
member vectors (`tof`, `face_tof_`) contained before the call: the output
vector is resized and zero-filled on entry, and the face auxiliary vector
is likewise reset when multidim upwind is enabled and never read when it
is disabled. -/
theorem solveTof_deterministic (g : UnstructuredGrid) (flux pv src : ℕ → ℚ)
    (multidim : Bool) (p1 f1 p2 f2 : List ℚ) :
    solveTof g flux pv src multidim p1 f1 = solveTof g flux pv src multidim p2 f2 := by
  simp only [solveTof]
  split_ifs with hc hm
  · rfl
  · simp [resizeFill_eq_replicate]
  · have hmf : multidim = false := by simpa using hm
    subst hmf
    exact congrArg Except.ok
      (reorderAndTransport_false_tof g flux pv src (compute_sequence g flux)
        ⟨resizeFill p1 g.number_of_cells, f1⟩
        ⟨resizeFill p2 g.number_of_cells, f2⟩
        (by rw [resizeFill_eq_replicate, resizeFill_eq_replicate]))

/-! ### C2: the single-cell closed form -/

/-- The claim's downwind flux: `max(0, -source[cell])` plus the sum of the
outgoing interior face fluxes of the cell (the faces the code's `else`
branch accumulates; a face with exactly zero flux lands there too and
contributes zero). -/
def downwindFluxSpec (g : UnstructuredGrid) (flux src : ℕ → ℚ) (cell : ℕ) : ℚ :=
  max 0 (-(src cell)) +
    (((cellFaceList g cell).filter
        (fun f => cellFaceOther g cell f ≠ -1 ∧ 0 ≤ cellFaceFlux g flux cell f)).map
      (cellFaceFlux g flux cell)).sum

/-- The claim's upwind term: the sum over the incoming interior faces of
the (negative) incoming flux times the neighbour cell's currently stored
TOF.  Sources do not appear: only faces contribute. -/
def upwindTermSpec (g : UnstructuredGrid) (flux : ℕ → ℚ) (tof : List ℚ) (cell : ℕ) : ℚ :=
  (((cellFaceList g cell).filter
      (fun f => cellFaceOther g cell f ≠ -1 ∧ cellFaceFlux g flux cell f < 0)).map
    (fun f => cellFaceFlux g flux cell f * tof.getD (cellFaceOther g cell f).toNat 0)).sum

/-- The face loop of `solveSingleCell` (multidim upwind disabled) splits
into the two filtered sums: incoming interior faces accumulate onto the
upwind term, the remaining interior faces onto the downwind flux, and
`face_tof_` is untouched. -/
theorem singleCellFold_split (g : UnstructuredGrid) (flux : ℕ → ℚ) (tof : List ℚ)
    (cell : ℕ) (hfs : List ℕ) :
    ∀ (u d : ℚ) (ft : List ℚ),
      hfs.foldl (singleCellFaceStep g flux tof false cell) (u, d, ft) =
        (u + (((hfs.map g.cell_faces).filter
            (fun f => cellFaceOther g cell f ≠ -1 ∧ cellFaceFlux g flux cell f < 0)).map
            (fun f => cellFaceFlux g flux cell f *
              tof.getD (cellFaceOther g cell f).toNat 0)).sum,
         d + (((hfs.map g.cell_faces).filter
            (fun f => cellFaceOther g cell f ≠ -1 ∧ 0 ≤ cellFaceFlux g flux cell f)).map
            (cellFaceFlux g flux cell)).sum,
         ft) := by
  induction hfs with
  | nil => intro u d ft; simp
  | cons hf rest ih =>
    intro u d ft
    rw [List.foldl_cons]
    by_cases hb : cellFaceOther g cell (g.cell_faces hf) ≠ -1
    · by_cases hneg : cellFaceFlux g flux cell (g.cell_faces hf) < 0
      · have hstep : singleCellFaceStep g flux tof false cell (u, d, ft) hf =
            (u + cellFaceFlux g flux cell (g.cell_faces hf) *
              tof.getD (cellFaceOther g cell (g.cell_faces hf)).toNat 0, d, ft) := by
          simp [singleCellFaceStep, hb, hneg]
        rw [hstep, ih]
        simp only [List.map_cons, List.filter_cons]
        simp [hb, hneg, not_le.mpr hneg]
        all_goals ring
      · have hstep : singleCellFaceStep g flux tof false cell (u, d, ft) hf =
            (u, d + cellFaceFlux g flux cell (g.cell_faces hf), ft) := by
          simp [singleCellFaceStep, hb, hneg]
        rw [hstep, ih]
        simp only [List.map_cons, List.filter_cons]
        simp [hb, hneg, not_lt.mp hneg]
        all_goals ring
    · have hstep : singleCellFaceStep g flux tof false cell (u, d, ft) hf =
          (u, d, ft) := by
        simp [singleCellFaceStep, hb]
      rw [hstep, ih]
      simp only [List.map_cons, List.filter_cons]
      simp [hb]

/-- C2: with multidim upwind disabled, the value the single-cell update
stores for `cell` is exactly
`(pore_volume[cell] - upwind_term) / downwind_flux`, with
`downwind_flux = max(0, -source[cell]) + Σ(outgoing interior fluxes)` and
`upwind_term = Σ(incoming interior flux × neighbour's stored TOF)`; a
positive (pure-source) source term contributes to neither sum. -/
theorem solveSingleCell_closed_form (g : UnstructuredGrid) (flux pv src : ℕ → ℚ)
    (st : TofState) (cell : ℕ) (hcell : cell < st.tof.length) :
    (solveSingleCell g flux pv src false st cell).tof.getD cell 0 =
      (pv cell - upwindTermSpec g flux st.tof cell) / downwindFluxSpec g flux src cell := by
  simp only [solveSingleCell]
  rw [singleCellFold_split g flux st.tof cell (cellHalfFaces g cell) 0
    (max (-(src cell)) 0) st.face_tof]
  rw [List.getD_eq_getElem _ _ (by simpa using hcell)]
  simp only [List.getElem_set_self, upwindTermSpec, downwindFluxSpec, cellFaceList,
    zero_add]
  rw [max_comm]


/-- Witness for the single-cell closed form at a concrete state of the
3-cell chain (cell 1, with cell 0's TOF already stored). -/
theorem solveSingleCell_closed_form_witness :
    (1 : ℕ) < ([(1 : ℚ), 0, 0] : List ℚ).length ∧
      (solveSingleCell chain3 chain3Flux chain3Pv chain3Src false
          ⟨[(1 : ℚ), 0, 0], []⟩ 1).tof.getD 1 0 =
        (chain3Pv 1 - upwindTermSpec chain3 chain3Flux [(1 : ℚ), 0, 0] 1) /
          downwindFluxSpec chain3 chain3Flux chain3Src 1 :=
  ⟨by decide,
   solveSingleCell_closed_form chain3 chain3Flux chain3Pv chain3Src
     ⟨[(1 : ℚ), 0, 0], []⟩ 1 (by decide)⟩

/-! ### C10: the multidim-upwind divisor is never zero -/

/-- C10: `multidimUpwindTof` is reached in the face loop only behind the
`flux < 0` guard, and under that guard the divisor `|darcyflux[face]|`
of `omega_star` is strictly positive; for a face failing the guard the
step performs no multidim work (it leaves `face_tof_` untouched). -/
theorem multidim_divisor_safe (g : UnstructuredGrid) (flux : ℕ → ℚ) (tof : List ℚ)
    (cell : ℕ) (acc : ℚ × ℚ × List ℚ) (hf : ℕ) :
    (cellFaceFlux g flux cell (g.cell_faces hf) < 0 →
        0 < |flux (g.cell_faces hf)|) ∧
      (0 ≤ cellFaceFlux g flux cell (g.cell_faces hf) →
        (singleCellFaceStep g flux tof true cell acc hf).2.2 = acc.2.2) := by
  constructor
  · intro h
    have hne : flux (g.cell_faces hf) ≠ 0 := by
      unfold cellFaceFlux at h
      split_ifs at h
      · exact ne_of_lt h
      · intro h0; rw [h0] at h; simp at h
    exact abs_pos.mpr hne
  · intro h
    have hnl : ¬ cellFaceFlux g flux cell (g.cell_faces hf) < 0 := not_lt.mpr h
    simp only [singleCellFaceStep]
    split_ifs <;> rfl

attribute [local semireducible] Rat.add Rat.sub Rat.mul Rat.inv in
/-- Witness for the divisor safety: on the 3-cell chain, the inflow face
of cell 2 has positive flux magnitude, and the outflow face of cell 0
leaves `face_tof_` untouched. -/
theorem multidim_divisor_safe_witness :
    0 < |chain3Flux (chain3.cell_faces 3)| ∧
      (singleCellFaceStep chain3 chain3Flux [] true 0 (0, 0, []) 0).2.2 =
        ([] : List ℚ) :=
  ⟨(multidim_divisor_safe chain3 chain3Flux [] 2 (0, 0, []) 3).1 (by decide),
   (multidim_divisor_safe chain3 chain3Flux [] 0 (0, 0, []) 0).2 (by decide)⟩


/-! ### C6: the multidim upwind corrected face value -/

/-- Signed inflow rate of face `f` relative to cell `u`
(`influx_f` in `multidimUpwindTof`). -/
def influxRate (g : UnstructuredGrid) (flux : ℕ → ℚ) (u f : ℕ) : ℚ :=
  if g.face_cells (2 * f) = (u : ℤ) then -(flux f) else flux f

/-- The blend weight as the spec states it:
`omega = omega_star / (1 + omega_star)` when
`omega_star = inflow(f) / |flux(face)|` is positive, else `0`. -/
def omegaSpec (g : UnstructuredGrid) (flux : ℕ → ℚ) (face u f : ℕ) : ℚ :=
  let os := influxRate g flux u f / |flux face|
  if 0 < os then os / (1 + os) else 0

/-- The per-adjacent-face corrected value
`(1 - omega) * tof[u] + omega * face_tof[f]`. -/
def blendSpec (g : UnstructuredGrid) (flux : ℕ → ℚ) (st : TofState)
    (face u f : ℕ) : ℚ :=
  (1 - omegaSpec g flux face u f) * st.tof.getD u 0 +
    omegaSpec g flux face u f * st.face_tof.getD f 0

/-- Accumulating, then dividing: a left fold of additions is the sum of
the mapped list. -/
theorem foldl_add_sum {α : Type} (f : α → ℚ) (l : List α) :
    ∀ a : ℚ, l.foldl (fun acc x => acc + f x) a = a + (l.map f).sum := by
  induction l with
  | nil => intro a; simp
  | cons x l ih => intro a; simp [ih]; ring

/-- C6: the corrected value of an upwind face `face` with upstream cell
`u` is the arithmetic mean over the adjacent faces of the blended values
`(1 - omega) * tof[u] + omega * face_tof[f]` (with `omega` as in
`omegaSpec`); and the face loop, on an interior inflow face with multidim
upwind enabled, stores that value into `face_tof_[face]` and adds
`flux * value` to the upwind term — the store happens in the same step,
before the value is consumed by the calling single-cell update. -/
theorem multidimUpwindTof_mean (g : UnstructuredGrid) (flux : ℕ → ℚ)
    (st : TofState) (face u cell : ℕ) (acc : ℚ × ℚ × List ℚ) (hf : ℕ)
    (hface : g.cell_faces hf = face)
    (hneg : cellFaceFlux g flux cell face < 0)
    (hother : cellFaceOther g cell face = (u : ℤ)) :
    multidimUpwindTof g flux st face u =
        ((adjFaces g face u).map (blendSpec g flux st face u)).sum /
          ((adjFaces g face u).length : ℚ) ∧
      singleCellFaceStep g flux st.tof true cell acc hf =
        (acc.1 + cellFaceFlux g flux cell face *
            multidimUpwindTof g flux ⟨st.tof, acc.2.2⟩ face u,
          acc.2.1,
          acc.2.2.set face (multidimUpwindTof g flux ⟨st.tof, acc.2.2⟩ face u)) := by
  constructor
  · rw [multidimUpwindTof]
    simp only [blendSpec, omegaSpec, influxRate]
    have h0 := foldl_add_sum (blendSpec g flux st face u) (adjFaces g face u) 0
    simp only [blendSpec, omegaSpec, influxRate] at h0
    rw [h0, zero_add]
  · subst hface
    simp only [singleCellFaceStep, hother, Int.toNat_natCast]
    simp [hneg, (show ((u : ℤ)) ≠ -1 by omega)]


/-- Two unit squares side by side in 2D: cells `0` and `1` share the
interior face `1` (nodes `{1, 2}`); the other six faces are exterior.
Nodes: `3-2-5` on top, `0-1-4` on the bottom. -/
def quad2 : UnstructuredGrid where
  number_of_cells := 2
  number_of_faces := 7
  dimensions := 2
  cell_facepos := fun i => [0, 4, 8].getD i 8
  cell_faces := fun j => [0, 1, 2, 3, 1, 4, 5, 6].getD j 0
  face_cells := fun k => [0, -1, 0, 1, 0, -1, 0, -1, 1, -1, 1, -1, 1, -1].getD k (-1)
  face_nodepos := fun f => 2 * f
  face_nodes := fun j => [0, 1, 1, 2, 2, 3, 3, 0, 1, 4, 4, 5, 5, 2].getD j 0

/-- Flux `-1` on the shared face `1` (flow from cell 1 into cell 0) and on
face `4` (inflow into cell 1); zero elsewhere. -/
def quad2Flux : ℕ → ℚ := fun f => if f = 1 then -1 else if f = 4 then -1 else 0

/-- Witness for the multidim corrected face value: cell 0 of the
two-square grid sees inflow across the shared face `1` from upstream
cell `1`, whose adjacent faces are `4` and `6`. -/
theorem multidimUpwindTof_mean_witness :
    multidimUpwindTof quad2 quad2Flux ⟨[3, 7], [0, 0, 0, 0, 0, 0, 0]⟩ 1 1 =
        ((adjFaces quad2 1 1).map
            (blendSpec quad2 quad2Flux ⟨[3, 7], [0, 0, 0, 0, 0, 0, 0]⟩ 1 1)).sum /
          ((adjFaces quad2 1 1).length : ℚ) ∧
      singleCellFaceStep quad2 quad2Flux [3, 7] true 0 (0, 0, [0, 0, 0, 0, 0, 0, 0]) 1 =
        ((0 : ℚ) + cellFaceFlux quad2 quad2Flux 0 1 *
            multidimUpwindTof quad2 quad2Flux ⟨[3, 7], [0, 0, 0, 0, 0, 0, 0]⟩ 1 1,
          (0 : ℚ),
          ([0, 0, 0, 0, 0, 0, 0] : List ℚ).set 1
            (multidimUpwindTof quad2 quad2Flux ⟨[3, 7], [0, 0, 0, 0, 0, 0, 0]⟩ 1 1)) :=
  multidimUpwindTof_mean quad2 quad2Flux ⟨[3, 7], [0, 0, 0, 0, 0, 0, 0]⟩ 1 1 0
    (0, 0, [0, 0, 0, 0, 0, 0, 0]) 1 (by decide) (by decide) (by decide)


/-! ### C3: edges of the upwind graph -/

/-- Well-formedness of the grid topology consumed by the graph builder:
`face_cells` entries are cell indices or `-1`; a cell's face list holds
real faces incident to it; every face is listed by both of its cells; and
no face joins a cell to itself. -/
structure GridWF (g : UnstructuredGrid) : Prop where
  face_cells_range : ∀ k, k < 2 * g.number_of_faces →
    -1 ≤ g.face_cells k ∧ g.face_cells k < (g.number_of_cells : ℤ)
  cell_face_bound : ∀ c, c < g.number_of_cells →
    ∀ f ∈ cellFaceList g c, f < g.number_of_faces
  cell_face_incident : ∀ c, c < g.number_of_cells → ∀ f ∈ cellFaceList g c,
    g.face_cells (2 * f) = (c : ℤ) ∨ g.face_cells (2 * f + 1) = (c : ℤ)
  face_in_cell_list : ∀ f, f < g.number_of_faces → ∀ c : ℕ, c < g.number_of_cells →
    (g.face_cells (2 * f) = (c : ℤ) ∨ g.face_cells (2 * f + 1) = (c : ℤ)) →
    f ∈ cellFaceList g c
  distinct_sides : ∀ f, f < g.number_of_faces →
    g.face_cells (2 * f) ≠ g.face_cells (2 * f + 1)

/-- The claim's edge condition: the signed flux over interior face `f`
points from cell `i` into cell `j` (positive flux goes from
`face_cells[2f]` to `face_cells[2f+1]`). -/
def fluxFromTo (g : UnstructuredGrid) (flux : ℕ → ℚ) (i j f : ℕ) : Prop :=
  (g.face_cells (2 * f) = (i : ℤ) ∧ g.face_cells (2 * f + 1) = (j : ℤ) ∧ 0 < flux f) ∨
    (g.face_cells (2 * f) = (j : ℤ) ∧ g.face_cells (2 * f + 1) = (i : ℤ) ∧ flux f < 0)

instance (g : UnstructuredGrid) (flux : ℕ → ℚ) (i j f : ℕ) :
    Decidable (fluxFromTo g flux i j f) := by
  unfold fluxFromTo; infer_instance

/-- Cell `c` stores itself as the upwind cell of face `f` in the first
pass of `make_upwind_graph`. -/
def writesUpwind (g : UnstructuredGrid) (flux : ℕ → ℚ) (c f : ℕ) : Prop :=
  f ∈ cellFaceList g c ∧ 0 < cellFaceFlux g flux c f

instance (g : UnstructuredGrid) (flux : ℕ → ℚ) (c f : ℕ) :
    Decidable (writesUpwind g flux c f) := by
  unfold writesUpwind; infer_instance

/-- One cell's pass over its faces sets `work[f] = c` exactly on the faces
it writes, and leaves every other entry alone. -/
theorem innerPass_eq (g : UnstructuredGrid) (flux : ℕ → ℚ) (c : ℕ) (l : List ℕ) :
    ∀ (w : ℕ → ℤ) (f : ℕ),
      (l.foldl (fun w2 f2 =>
          if 0 < cellFaceFlux g flux c f2 then Function.update w2 f2 (c : ℤ) else w2) w) f =
        if f ∈ l ∧ 0 < cellFaceFlux g flux c f then (c : ℤ) else w f := by
  induction l with
  | nil => intro w f; simp
  | cons a l ih =>
    intro w f
    rw [List.foldl_cons, ih]
    by_cases hm : f ∈ l ∧ 0 < cellFaceFlux g flux c f
    · rw [if_pos hm, if_pos ⟨List.mem_cons.mpr (Or.inr hm.1), hm.2⟩]
    · rw [if_neg hm]
      by_cases hfa : f = a
      · subst hfa
        by_cases hpos : 0 < cellFaceFlux g flux c f
        · rw [if_pos hpos, if_pos ⟨List.mem_cons_self f l, hpos⟩, Function.update_same]
        · rw [if_neg hpos, if_neg (fun hc => hpos hc.2)]
      · have hiff : ¬ (f ∈ a :: l ∧ 0 < cellFaceFlux g flux c f) := by
          rintro ⟨hmem, hp⟩
          rcases List.mem_cons.mp hmem with h | h
          · exact hfa h
          · exact hm ⟨h, hp⟩
        rw [if_neg hiff]
        by_cases hpos : 0 < cellFaceFlux g flux c a
        · rw [if_pos hpos, Function.update_noteq hfa]
        · rw [if_neg hpos]


/-- The whole first pass, when face `f` has at most the single candidate
writer `u` among the listed cells: the final work entry of `f` is `u`
when `u` is listed and writes `f`, and the incoming entry otherwise. -/
theorem outerPass_unique (g : UnstructuredGrid) (flux : ℕ → ℚ) (f u : ℕ) :
    ∀ (L : List ℕ) (w : ℕ → ℤ),
      (∀ c ∈ L, writesUpwind g flux c f → c = u) →
      (L.foldl (fun w1 i =>
          (cellFaceList g i).foldl (fun w2 f2 =>
            if 0 < cellFaceFlux g flux i f2 then Function.update w2 f2 (i : ℤ) else w2)
            w1) w) f =
        if u ∈ L ∧ writesUpwind g flux u f then (u : ℤ) else w f := by
  intro L
  induction L with
  | nil => intro w _; simp
  | cons a L ih =>
    intro w hu
    rw [List.foldl_cons, ih _ (fun c hc hw => hu c (List.mem_cons.mpr (Or.inr hc)) hw)]
    by_cases hcase : u ∈ L ∧ writesUpwind g flux u f
    · rw [if_pos hcase, if_pos ⟨List.mem_cons.mpr (Or.inr hcase.1), hcase.2⟩]
    · rw [if_neg hcase, innerPass_eq]
      by_cases hwa : f ∈ cellFaceList g a ∧ 0 < cellFaceFlux g flux a f
      · have hau : a = u := hu a (List.mem_cons_self a L) hwa
        subst hau
        rw [if_pos hwa, if_pos ⟨List.mem_cons_self a L, hwa⟩]
      · rw [if_neg hwa]
        have hcond : ¬ (u ∈ a :: L ∧ writesUpwind g flux u f) := by
          rintro ⟨hmem, hwu⟩
          rcases List.mem_cons.mp hmem with h | h
          · exact hwa (h ▸ hwu)
          · exact hcase ⟨h, hwu⟩
        rw [if_neg hcond]

/-- For a well-formed grid, at most one cell can see positive flux over a
given face: the upwind cell of `f` is unique. -/
theorem writer_unique (g : UnstructuredGrid) (flux : ℕ → ℚ) (wf : GridWF g)
    (f c1 c2 : ℕ) (h1 : c1 < g.number_of_cells) (h2 : c2 < g.number_of_cells)
    (w1 : writesUpwind g flux c1 f) (w2 : writesUpwind g flux c2 f) : c1 = c2 := by
  obtain ⟨m1, p1⟩ := w1
  obtain ⟨m2, p2⟩ := w2
  unfold cellFaceFlux at p1 p2
  by_cases e1 : (c1 : ℤ) = g.face_cells (2 * f)
  · by_cases e2 : (c2 : ℤ) = g.face_cells (2 * f)
    · exact_mod_cast e1.trans e2.symm
    · rw [if_pos e1] at p1
      rw [if_neg e2] at p2
      linarith
  · by_cases e2 : (c2 : ℤ) = g.face_cells (2 * f)
    · rw [if_neg e1] at p1
      rw [if_pos e2] at p2
      linarith
    · rcases wf.cell_face_incident c1 h1 f m1 with h | h
      · exact absurd h.symm e1
      · rcases wf.cell_face_incident c2 h2 f m2 with h4 | h4
        · exact absurd h4.symm e2
        · have hcc : (c1 : ℤ) = (c2 : ℤ) := by rw [← h, ← h4]
          exact_mod_cast hcc

/-- Membership in a CSR row of the upwind graph: an entry is the work
value of some interior inflow face of the row's cell. -/
theorem mem_upwindGraphRow (g : UnstructuredGrid) (flux : ℕ → ℚ) (w : ℕ → ℤ)
    (j : ℕ) (x : ℤ) :
    x ∈ upwindGraphRow g flux w j ↔
      ∃ f ∈ cellFaceList g j, ¬ boundaryFace g f ∧
        cellFaceFlux g flux j f < 0 ∧ w f = x := by
  unfold upwindGraphRow
  rw [List.mem_filterMap]
  constructor
  · rintro ⟨f, hf, hsome⟩
    by_cases hb : boundaryFace g f
    · rw [if_pos hb] at hsome
      exact absurd hsome (by simp)
    · rw [if_neg hb] at hsome
      by_cases hneg : cellFaceFlux g flux j f < 0
      · rw [if_pos hneg] at hsome
        exact ⟨f, hf, hb, hneg, Option.some_injective _ hsome⟩
      · rw [if_neg hneg] at hsome
        exact absurd hsome (by simp)
  · rintro ⟨f, hf, hb, hneg, hw⟩
    exact ⟨f, hf, by rw [if_neg hb, if_pos hneg, hw]⟩

/-- Row extraction from the produced adjacency. -/
theorem make_upwind_graph_getD (g : UnstructuredGrid) (flux : ℕ → ℚ)
    (work0 : ℕ → ℤ) (j : ℕ) (hj : j < g.number_of_cells) :
    (make_upwind_graph g flux work0).getD j [] =
      upwindGraphRow g flux (upwindWorkArray g flux work0) j := by
  unfold make_upwind_graph
  rw [List.getD_eq_getElem _ _ (by simpa using hj)]
  simp

/-- C3: in the graph built by `make_upwind_graph` (rows indexed by the
receiving cell: row `j` lists the donors of `j`), the edge `i → j` is
present iff some interior face joins `i` and `j` with its signed flux
pointing from `i` into `j`; a boundary face (a `face_cells` entry `-1` on
either side) never contributes an edge, whatever its flux. -/
theorem make_upwind_graph_edge_iff (g : UnstructuredGrid) (flux : ℕ → ℚ)
    (work0 : ℕ → ℤ) (wf : GridWF g) (i j : ℕ)
    (hi : i < g.number_of_cells) (hj : j < g.number_of_cells) :
    ((i : ℤ) ∈ (make_upwind_graph g flux work0).getD j []) ↔
      ∃ f, f < g.number_of_faces ∧ ¬ boundaryFace g f ∧ fluxFromTo g flux i j f := by
  rw [make_upwind_graph_getD g flux work0 j hj, mem_upwindGraphRow]
  constructor
  · rintro ⟨f, hfmem, hb, hneg, hwf⟩
    have hfn : f < g.number_of_faces := wf.cell_face_bound j hj f hfmem
    have hr0 := wf.face_cells_range (2 * f) (by omega)
    have hr1 := wf.face_cells_range (2 * f + 1) (by omega)
    have hbb : g.face_cells (2 * f) ≠ -1 ∧ g.face_cells (2 * f + 1) ≠ -1 := by
      unfold boundaryFace at hb
      push_neg at hb
      exact hb
    have hne01 := wf.distinct_sides f hfn
    by_cases hside : (j : ℤ) = g.face_cells (2 * f)
    · have hp : flux f < 0 := by
        unfold cellFaceFlux at hneg
        rwa [if_pos hside] at hneg
      set u := (g.face_cells (2 * f + 1)).toNat with hudef
      have hu1 : ((u : ℕ) : ℤ) = g.face_cells (2 * f + 1) := by
        rw [hudef]
        exact Int.toNat_of_nonneg (by omega)
      have hult : u < g.number_of_cells := by omega
      have hwu : writesUpwind g flux u f := by
        refine ⟨wf.face_in_cell_list f hfn u hult (Or.inr hu1.symm), ?_⟩
        unfold cellFaceFlux
        rw [if_neg (by rw [hu1, ← hside]; exact fun hh => hne01 (hside.symm.trans hh.symm))]
        linarith
      have hall : ∀ c ∈ List.range g.number_of_cells, writesUpwind g flux c f → c = u :=
        fun c hc hw => writer_unique g flux wf f c u (List.mem_range.mp hc) hult hw hwu
      unfold upwindWorkArray at hwf
      rw [outerPass_unique g flux f u (List.range g.number_of_cells) work0 hall,
        if_pos ⟨List.mem_range.mpr hult, hwu⟩] at hwf
      have hui : u = i := by exact_mod_cast hwf
      exact ⟨f, hfn, hb, Or.inr ⟨hside.symm, by rw [← hu1, hui], hp⟩⟩
    · have hj1 : g.face_cells (2 * f + 1) = (j : ℤ) := by
        rcases wf.cell_face_incident j hj f hfmem with h | h
        · exact absurd h.symm hside
        · exact h
      have hp : 0 < flux f := by
        unfold cellFaceFlux at hneg
        rw [if_neg hside] at hneg
        linarith
      set u := (g.face_cells (2 * f)).toNat with hudef
      have hu1 : ((u : ℕ) : ℤ) = g.face_cells (2 * f) := by
        rw [hudef]
        exact Int.toNat_of_nonneg (by omega)
      have hult : u < g.number_of_cells := by omega
      have hwu : writesUpwind g flux u f := by
        refine ⟨wf.face_in_cell_list f hfn u hult (Or.inl hu1.symm), ?_⟩
        unfold cellFaceFlux
        rw [if_pos hu1]
        exact hp
      have hall : ∀ c ∈ List.range g.number_of_cells, writesUpwind g flux c f → c = u :=
        fun c hc hw => writer_unique g flux wf f c u (List.mem_range.mp hc) hult hw hwu
      unfold upwindWorkArray at hwf
      rw [outerPass_unique g flux f u (List.range g.number_of_cells) work0 hall,
        if_pos ⟨List.mem_range.mpr hult, hwu⟩] at hwf
      have hui : u = i := by exact_mod_cast hwf
      exact ⟨f, hfn, hb, Or.inl ⟨by rw [← hu1, hui], hj1, hp⟩⟩
  · rintro ⟨f, hfn, hb, hft⟩
    have hr0 := wf.face_cells_range (2 * f) (by omega)
    have hr1 := wf.face_cells_range (2 * f + 1) (by omega)
    have hne01 := wf.distinct_sides f hfn
    rcases hft with ⟨e0, e1, hp⟩ | ⟨e0, e1, hn⟩
    · have hij : (i : ℤ) ≠ (j : ℤ) := by
        rw [← e0, ← e1]
        exact hne01
      have hmemj : f ∈ cellFaceList g j :=
        wf.face_in_cell_list f hfn j hj (Or.inr e1)
      have hneg : cellFaceFlux g flux j f < 0 := by
        unfold cellFaceFlux
        rw [if_neg (by rw [e0]; exact fun hh => hij hh.symm)]
        linarith
      have hwu : writesUpwind g flux i f := by
        refine ⟨wf.face_in_cell_list f hfn i hi (Or.inl e0), ?_⟩
        unfold cellFaceFlux
        rw [if_pos e0.symm]
        exact hp
      have hall : ∀ c ∈ List.range g.number_of_cells, writesUpwind g flux c f → c = i :=
        fun c hc hw => writer_unique g flux wf f c i (List.mem_range.mp hc) hi hw hwu
      refine ⟨f, hmemj, hb, hneg, ?_⟩
      unfold upwindWorkArray
      rw [outerPass_unique g flux f i (List.range g.number_of_cells) work0 hall,
        if_pos ⟨List.mem_range.mpr hi, hwu⟩]
    · have hij : (j : ℤ) ≠ (i : ℤ) := by
        rw [← e0, ← e1]
        exact hne01
      have hmemj : f ∈ cellFaceList g j :=
        wf.face_in_cell_list f hfn j hj (Or.inl e0)
      have hneg : cellFaceFlux g flux j f < 0 := by
        unfold cellFaceFlux
        rw [if_pos e0.symm]
        exact hn
      have hwu : writesUpwind g flux i f := by
        refine ⟨wf.face_in_cell_list f hfn i hi (Or.inr e1), ?_⟩
        unfold cellFaceFlux
        rw [if_neg (by rw [e0]; exact fun hh => hij hh.symm)]
        linarith
      have hall : ∀ c ∈ List.range g.number_of_cells, writesUpwind g flux c f → c = i :=
        fun c hc hw => writer_unique g flux wf f c i (List.mem_range.mp hc) hi hw hwu
      refine ⟨f, hmemj, hb, hneg, ?_⟩
      unfold upwindWorkArray
      rw [outerPass_unique g flux f i (List.range g.number_of_cells) work0 hall,
        if_pos ⟨List.mem_range.mpr hi, hwu⟩]


attribute [local semireducible] Rat.add Rat.sub Rat.mul Rat.inv in
/-- Witness for the edge characterization: on the 3-cell chain the edge
`0 → 1` is present and explained by interior face `0`. -/
theorem make_upwind_graph_edge_iff_witness :
    ∃ f, f < chain3.number_of_faces ∧ ¬ boundaryFace chain3 f ∧
      fluxFromTo chain3 chain3Flux 0 1 f :=
  (make_upwind_graph_edge_iff chain3 chain3Flux (fun _ => 0)
      ⟨by decide, by decide, by decide, by decide, by decide⟩ 0 1
      (by decide) (by decide)).mp (by decide)


/-! ### C9: the component sequence is a partition -/

/-- A cell is assigned iff it occurs in the concatenation of the
components. -/
theorem assignedIn_iff_mem_flatten (comps : List (List ℕ)) (x : ℕ) :
    assignedIn comps x = true ↔ x ∈ comps.flatten := by
  simp [assignedIn, List.any_eq_true, List.mem_flatten, List.elem_iff]

/-- Reachability is reflexive for positive fuel. -/
theorem reachB_self (adj : ℕ → List ℕ) (fuel i : ℕ) (h : 0 < fuel) :
    reachB adj fuel i i = true := by
  cases fuel with
  | zero => omega
  | succ k => simp [reachB]

/-- A step never unassigns a cell. -/
theorem assignedIn_sccStep_of (nc : ℕ) (adj : ℕ → List ℕ)
    (comps : List (List ℕ)) (c x : ℕ) (h : assignedIn comps x = true) :
    assignedIn (sccStep nc adj comps c) x = true := by
  unfold sccStep
  split_ifs
  · exact h
  · unfold assignedIn at h ⊢
    rw [List.any_append, h, Bool.true_or]

/-- The whole fold never unassigns a cell. -/
theorem assignedIn_foldl_of (nc : ℕ) (adj : ℕ → List ℕ) (L : List ℕ) :
    ∀ (comps : List (List ℕ)) (x : ℕ), assignedIn comps x = true →
      assignedIn (L.foldl (sccStep nc adj) comps) x = true := by
  induction L with
  | nil => intro comps x h; exact h
  | cons a L ih =>
    intro comps x h
    exact ih _ _ (assignedIn_sccStep_of nc adj comps a x h)

/-- Appending a component containing `x` assigns `x`. -/
theorem assignedIn_append_right (comps : List (List ℕ)) (k : List ℕ) (x : ℕ)
    (h : x ∈ k) : assignedIn (comps ++ [k]) x = true := by
  unfold assignedIn
  rw [List.any_append, List.any_cons, List.any_nil]
  have hcont : k.contains x = true := List.elem_iff.mpr h
  rw [hcont]
  simp

/-- Processing a cell within range leaves it assigned. -/
theorem sccStep_assigns_self (nc : ℕ) (adj : ℕ → List ℕ)
    (comps : List (List ℕ)) (c : ℕ) (hc : c < nc) :
    assignedIn (sccStep nc adj comps c) c = true := by
  unfold sccStep
  split_ifs with ha
  · exact ha
  · have hmem : c ∈ (List.range nc).filter
        (fun j => !assignedIn comps j && mutualReachB adj nc c j) := by
      rw [List.mem_filter]
      refine ⟨List.mem_range.mpr hc, ?_⟩
      rw [Bool.and_eq_true, Bool.not_eq_true']
      exact ⟨by simpa using ha, by
        unfold mutualReachB
        rw [Bool.and_eq_true]
        exact ⟨reachB_self adj nc c (by omega), reachB_self adj nc c (by omega)⟩⟩
    exact assignedIn_append_right comps _ c hmem

/-- After the fold every processed in-range cell is assigned. -/
theorem foldl_assigns_all (nc : ℕ) (adj : ℕ → List ℕ) (L : List ℕ) :
    ∀ comps : List (List ℕ), (∀ c ∈ L, c < nc) →
      ∀ c ∈ L, assignedIn (L.foldl (sccStep nc adj) comps) c = true := by
  induction L with
  | nil => intro _ _ c hc; exact absurd hc (List.not_mem_nil c)
  | cons a L ih =>
    intro comps hL c hc
    rw [List.foldl_cons]
    rcases List.mem_cons.mp hc with h | h
    · subst h
      exact assignedIn_foldl_of nc adj L _ c
        (sccStep_assigns_self nc adj comps c (hL c (List.mem_cons_self c L)))
    · exact ih _ (fun d hd => hL d (List.mem_cons.mpr (Or.inr hd))) c h

/-- The invariant maintained by the grouping fold: all listed cells are in
range, no cell is listed twice, and no component is empty. -/
def CompInv (nc : ℕ) (comps : List (List ℕ)) : Prop :=
  (∀ x ∈ comps.flatten, x < nc) ∧ comps.flatten.Nodup ∧ ∀ comp ∈ comps, comp ≠ []

/-- A step preserves the invariant. -/
theorem sccStep_inv (nc : ℕ) (adj : ℕ → List ℕ) (comps : List (List ℕ)) (c : ℕ)
    (hc : c < nc) (hinv : CompInv nc comps) : CompInv nc (sccStep nc adj comps c) := by
  obtain ⟨hb, hnd, hne⟩ := hinv
  unfold sccStep
  split_ifs with ha
  · exact ⟨hb, hnd, hne⟩
  · have hflat : (comps ++ [(List.range nc).filter
        (fun j => !assignedIn comps j && mutualReachB adj nc c j)]).flatten =
        comps.flatten ++ (List.range nc).filter
          (fun j => !assignedIn comps j && mutualReachB adj nc c j) := by
      rw [List.flatten_append]
      simp
    refine ⟨?_, ?_, ?_⟩
    · intro x hx
      rw [hflat] at hx
      rcases List.mem_append.mp hx with h | h
      · exact hb x h
      · exact List.mem_range.mp (List.mem_filter.mp h).1
    · rw [hflat]
      refine List.Nodup.append hnd (List.Nodup.filter _ (List.nodup_range nc)) ?_
      intro x hx1 hx2
      have := (List.mem_filter.mp hx2).2
      rw [Bool.and_eq_true, Bool.not_eq_true'] at this
      rw [← assignedIn_iff_mem_flatten] at hx1
      rw [this.1] at hx1
      exact Bool.false_ne_true hx1
    · intro comp hcomp
      rcases List.mem_append.mp hcomp with h | h
      · exact hne comp h
      · have hceq : comp = (List.range nc).filter
            (fun j => !assignedIn comps j && mutualReachB adj nc c j) := by
          simpa using h
        subst hceq
        have hcm : c ∈ (List.range nc).filter
            (fun j => !assignedIn comps j && mutualReachB adj nc c j) := by
          rw [List.mem_filter]
          refine ⟨List.mem_range.mpr hc, ?_⟩
          rw [Bool.and_eq_true, Bool.not_eq_true']
          refine ⟨by simpa using ha, ?_⟩
          unfold mutualReachB
          rw [Bool.and_eq_true]
          exact ⟨reachB_self adj nc c (by omega), reachB_self adj nc c (by omega)⟩
        exact List.ne_nil_of_mem hcm

/-- The fold preserves the invariant. -/
theorem foldl_inv (nc : ℕ) (adj : ℕ → List ℕ) (L : List ℕ) :
    ∀ comps : List (List ℕ), (∀ c ∈ L, c < nc) → CompInv nc comps →
      CompInv nc (L.foldl (sccStep nc adj) comps) := by
  induction L with
  | nil => intro comps _ h; exact h
  | cons a L ih =>
    intro comps hL hinv
    rw [List.foldl_cons]
    exact ih _ (fun d hd => hL d (List.mem_cons.mpr (Or.inr hd)))
      (sccStep_inv nc adj comps a (hL a (List.mem_cons_self a L)) hinv)

/-- Inserting into the sorted component list is a permutation. -/
theorem insertByKey_perm (key : List ℕ → ℕ) (c : List ℕ) :
    ∀ l : List (List ℕ), (insertByKey key c l).Perm (c :: l) := by
  intro l
  induction l with
  | nil => simp [insertByKey]
  | cons d ds ih =>
    unfold insertByKey
    split_ifs
    · exact List.Perm.refl _
    · exact (List.Perm.cons d ih).trans (List.Perm.swap c d ds)

/-- The component ordering is a permutation of the grouped components. -/
theorem sortByKey_perm (key : List ℕ → ℕ) :
    ∀ l : List (List ℕ), (sortByKey key l).Perm l := by
  intro l
  induction l with
  | nil => exact List.Perm.refl _
  | cons c cs ih =>
    unfold sortByKey
    exact (insertByKey_perm key c (sortByKey key cs)).trans (List.Perm.cons c ih)

/-- Each component nonempty forces at least as many listed cells as
components. -/
theorem length_le_flatten_length :
    ∀ comps : List (List ℕ), (∀ comp ∈ comps, comp ≠ []) →
      comps.length ≤ comps.flatten.length := by
  intro comps
  induction comps with
  | nil => intro _; simp
  | cons comp comps ih =>
    intro h
    rw [List.flatten_cons, List.length_append, List.length_cons]
    have h1 : 1 ≤ comp.length := by
      have := h comp (List.mem_cons_self comp comps)
      cases comp with
      | nil => exact absurd rfl this
      | cons a l => simp
    have h2 := ih (fun d hd => h d (List.mem_cons.mpr (Or.inr hd)))
    omega

/-- C9: the (spec-modelled) reorder sequence of
`compute_reorder_sequence_graph` is a partition of the cell indices: the
number of components is between 1 and the cell count, every cell index
below the cell count appears exactly once in the emitted sequence, and
nothing else appears. -/
theorem reorder_sequence_partition (g : UnstructuredGrid) (flux : ℕ → ℚ)
    (work0 : ℕ → ℤ) (h : 0 < g.number_of_cells) :
    (1 ≤ (compute_reorder_sequence_graph g flux work0).length ∧
        (compute_reorder_sequence_graph g flux work0).length ≤ g.number_of_cells) ∧
      (∀ c, c < g.number_of_cells →
        ((compute_reorder_sequence_graph g flux work0).flatten).count c = 1) ∧
      ∀ x ∈ (compute_reorder_sequence_graph g flux work0).flatten,
        x < g.number_of_cells := by
  set nc := g.number_of_cells with hnc
  set adj := adjOf (make_upwind_graph g flux work0) with hadj
  have hperm : (compute_reorder_sequence_graph g flux work0).Perm
      (sccComponents nc adj) := by
    unfold compute_reorder_sequence_graph orderedComponents
    exact sortByKey_perm _ _
  have hfperm : (compute_reorder_sequence_graph g flux work0).flatten.Perm
      (sccComponents nc adj).flatten := hperm.flatten
  have hinv : CompInv nc (sccComponents nc adj) := by
    unfold sccComponents
    exact foldl_inv nc adj (List.range nc) []
      (fun c hc => List.mem_range.mp hc) ⟨by simp, by simp, by simp⟩
  obtain ⟨hb, hnd, hne⟩ := hinv
  have hall : ∀ c, c < nc → c ∈ (sccComponents nc adj).flatten := by
    intro c hc
    rw [← assignedIn_iff_mem_flatten]
    unfold sccComponents
    exact foldl_assigns_all nc adj (List.range nc) []
      (fun d hd => List.mem_range.mp hd) c (List.mem_range.mpr hc)
  refine ⟨⟨?_, ?_⟩, ?_, ?_⟩
  · rw [hperm.length_eq]
    have h0 : (0 : ℕ) ∈ (sccComponents nc adj).flatten := hall 0 h
    have hfne : (sccComponents nc adj).flatten ≠ [] := List.ne_nil_of_mem h0
    have hcne : sccComponents nc adj ≠ [] := by
      intro hnil
      rw [hnil] at hfne
      exact hfne rfl
    exact List.length_pos.mpr hcne
  · rw [hperm.length_eq]
    have hsub : (sccComponents nc adj).flatten ⊆ List.range nc := by
      intro x hx
      exact List.mem_range.mpr (hb x hx)
    have hlen : (sccComponents nc adj).flatten.length ≤ nc := by
      have := (hnd.subperm hsub).length_le
      simpa using this
    exact le_trans (length_le_flatten_length _ hne) hlen
  · intro c hc
    rw [hfperm.count_eq]
    have hmem : c ∈ (sccComponents nc adj).flatten := hall c hc
    have hle := (List.nodup_iff_count_le_one.mp hnd) c
    have hpos := List.count_pos_iff.mpr hmem
    omega
  · intro x hx
    exact hb x (hfperm.mem_iff.mp hx)


/-- Witness for the partition property on the 3-cell chain. -/
theorem reorder_sequence_partition_witness :
    (1 ≤ (compute_reorder_sequence_graph chain3 chain3Flux (fun _ => 0)).length ∧
        (compute_reorder_sequence_graph chain3 chain3Flux (fun _ => 0)).length ≤
          chain3.number_of_cells) ∧
      (∀ c, c < chain3.number_of_cells →
        ((compute_reorder_sequence_graph chain3 chain3Flux
          (fun _ => 0)).flatten).count c = 1) ∧
      ∀ x ∈ (compute_reorder_sequence_graph chain3 chain3Flux (fun _ => 0)).flatten,
        x < chain3.number_of_cells :=
  reorder_sequence_partition chain3 chain3Flux (fun _ => 0) (by decide)


/-! ### C8: monotone TOF along a source-to-sink chain -/

/-- A linear chain of `N` cells: interior face `i` joins cells `i` and
`i+1` (`face_cells (2i) = i`, `face_cells (2i+1) = i+1`); cell `0` lists
face `0`, an interior cell `m` lists faces `m-1` and `m`, and cell `N-1`
lists face `N-2`. -/
def chainGrid (N : ℕ) : UnstructuredGrid where
  number_of_cells := N
  number_of_faces := N - 1
  dimensions := 3
  cell_facepos := fun i => if i = 0 then 0 else if i < N then 2 * i - 1 else 2 * N - 2
  cell_faces := fun j => j / 2
  face_cells := fun k => ((k / 2 + k % 2 : ℕ) : ℤ)
  face_nodepos := fun _ => 0
  face_nodes := fun _ => 0

/-- Source `q` at cell `0`, sink `-q` at cell `N-1`, zero elsewhere. -/
def chainSrc (N : ℕ) (q : ℚ) : ℕ → ℚ :=
  fun i => if i = 0 then q else if i = N - 1 then -q else 0

/-- A sequence respects the dependencies of the upwind graph when every
cell comes after all of its upwind donors. -/
def seqRespectsDeps (g : UnstructuredGrid) (flux : ℕ → ℚ) (seq : List ℕ) : Prop :=
  ∀ j, j < g.number_of_cells →
    ∀ x ∈ (make_upwind_graph g flux (fun _ => 0)).getD j [],
      List.indexOf x.toNat seq < List.indexOf j seq

instance (g : UnstructuredGrid) (flux : ℕ → ℚ) (seq : List ℕ) :
    Decidable (seqRespectsDeps g flux seq) := by
  unfold seqRespectsDeps
  infer_instance

/-- First side of chain face `f`. -/
theorem chain_face_cells_fst (N f : ℕ) :
    (chainGrid N).face_cells (2 * f) = (f : ℤ) := by
  show ((2 * f / 2 + 2 * f % 2 : ℕ) : ℤ) = (f : ℤ)
  norm_cast
  omega

/-- Second side of chain face `f`. -/
theorem chain_face_cells_snd (N f : ℕ) :
    (chainGrid N).face_cells (2 * f + 1) = ((f + 1 : ℕ) : ℤ) := by
  show (((2 * f + 1) / 2 + (2 * f + 1) % 2 : ℕ) : ℤ) = ((f + 1 : ℕ) : ℤ)
  norm_cast
  omega

/-- Relative flux on the chain: `q` out of cell `f`, `-q` otherwise. -/
theorem chain_cellFaceFlux (N : ℕ) (q : ℚ) (c f : ℕ) :
    cellFaceFlux (chainGrid N) (fun _ => q) c f = if c = f then q else -q := by
  unfold cellFaceFlux
  rw [chain_face_cells_fst]
  by_cases h : c = f
  · rw [if_pos (by exact_mod_cast h), if_pos h]
  · rw [if_neg (fun hh => h (by exact_mod_cast hh)), if_neg h]

/-- The opposite cell over a chain face. -/
theorem chain_cellFaceOther (N : ℕ) (c f : ℕ) :
    cellFaceOther (chainGrid N) c f =
      if c = f then ((f + 1 : ℕ) : ℤ) else (f : ℤ) := by
  unfold cellFaceOther
  rw [chain_face_cells_fst, chain_face_cells_snd]
  by_cases h : c = f
  · rw [if_pos (by exact_mod_cast h), if_pos h]
  · rw [if_neg (fun hh => h (by exact_mod_cast hh)), if_neg h]

/-- Half-faces of the first chain cell. -/
theorem chain_halfFaces_zero (N : ℕ) (hN : 2 ≤ N) :
    cellHalfFaces (chainGrid N) 0 = [0] := by
  unfold cellHalfFaces
  have h0 : (chainGrid N).cell_facepos 0 = 0 := rfl
  have h1 : (chainGrid N).cell_facepos 1 = 1 := by
    show (if (1 : ℕ) = 0 then 0 else if 1 < N then 2 * 1 - 1 else 2 * N - 2) = 1
    rw [if_neg (by omega), if_pos (by omega)]
  rw [h0, h1]
  rfl

/-- Half-faces of an interior chain cell. -/
theorem chain_halfFaces_mid (N m : ℕ) (h1 : 1 ≤ m) (h2 : m ≤ N - 2) (hN : 2 ≤ N) :
    cellHalfFaces (chainGrid N) m = [2 * m - 1, 2 * m] := by
  unfold cellHalfFaces
  have ha : (chainGrid N).cell_facepos m = 2 * m - 1 := by
    show (if m = 0 then 0 else if m < N then 2 * m - 1 else 2 * N - 2) = 2 * m - 1
    rw [if_neg (by omega), if_pos (by omega)]
  have hb : (chainGrid N).cell_facepos (m + 1) = 2 * m + 1 := by
    show (if m + 1 = 0 then 0 else if m + 1 < N then 2 * (m + 1) - 1 else 2 * N - 2) =
      2 * m + 1
    rw [if_neg (by omega), if_pos (by omega)]
    omega
  rw [ha, hb]
  have hd : 2 * m + 1 - (2 * m - 1) = 2 := by omega
  rw [hd]
  have he : List.range' (2 * m - 1) 2 = [2 * m - 1, 2 * m - 1 + 1] := rfl
  rw [he]
  have hf : 2 * m - 1 + 1 = 2 * m := by omega
  rw [hf]

/-- Half-faces of the last chain cell. -/
theorem chain_halfFaces_last (N : ℕ) (hN : 2 ≤ N) :
    cellHalfFaces (chainGrid N) (N - 1) = [2 * (N - 1) - 1] := by
  unfold cellHalfFaces
  have ha : (chainGrid N).cell_facepos (N - 1) = 2 * (N - 1) - 1 := by
    show (if N - 1 = 0 then 0 else if N - 1 < N then 2 * (N - 1) - 1 else 2 * N - 2) =
      2 * (N - 1) - 1
    rw [if_neg (by omega), if_pos (by omega)]
  have hb : (chainGrid N).cell_facepos (N - 1 + 1) = 2 * N - 2 := by
    show (if N - 1 + 1 = 0 then 0 else if N - 1 + 1 < N then 2 * (N - 1 + 1) - 1
      else 2 * N - 2) = 2 * N - 2
    rw [if_neg (by omega), if_neg (by omega)]
  rw [ha, hb]
  have hd : 2 * N - 2 - (2 * (N - 1) - 1) = 1 := by omega
  rw [hd]
  rfl


/-- The single-cell update on the chain: cell `m` gets `pv m / q` plus
the currently stored TOF of its upstream neighbour (nothing for the
source cell), and `face_tof_` is untouched. -/
theorem chain_solveSingleCell (N : ℕ) (q : ℚ) (pv : ℕ → ℚ) (st : TofState) (m : ℕ)
    (hN : 2 ≤ N) (hq : 0 < q) (hm : m < N) :
    solveSingleCell (chainGrid N) (fun _ => q) pv (chainSrc N q) false st m =
      ⟨st.tof.set m (pv m / q + (if m = 0 then 0 else st.tof.getD (m - 1) 0)),
        st.face_tof⟩ := by
  by_cases hm0 : m = 0
  · subst hm0
    simp only [solveSingleCell]
    rw [chain_halfFaces_zero N hN]
    simp only [List.foldl_cons, List.foldl_nil, singleCellFaceStep]
    have hcf : (chainGrid N).cell_faces 0 = 0 := rfl
    rw [hcf]
    have hflux : cellFaceFlux (chainGrid N) (fun _ => q) 0 0 = q := by
      rw [chain_cellFaceFlux]
      exact if_pos rfl
    have hother : cellFaceOther (chainGrid N) 0 0 = ((0 + 1 : ℕ) : ℤ) := by
      rw [chain_cellFaceOther]
      exact if_pos rfl
    rw [hflux, hother]
    rw [show chainSrc N q 0 = q from rfl]
    rw [max_eq_right (by linarith : -q ≤ 0)]
    simp [show ((0 + 1 : ℕ) : ℤ) ≠ -1 by omega, show ¬ q < 0 by linarith]
  · by_cases hlast : m = N - 1
    · subst hlast
      simp only [solveSingleCell]
      rw [chain_halfFaces_last N hN]
      simp only [List.foldl_cons, List.foldl_nil, singleCellFaceStep]
      have hcf : (chainGrid N).cell_faces (2 * (N - 1) - 1) = N - 2 := by
        show (2 * (N - 1) - 1) / 2 = N - 2
        omega
      rw [hcf]
      have hflux : cellFaceFlux (chainGrid N) (fun _ => q) (N - 1) (N - 2) = -q := by
        rw [chain_cellFaceFlux]
        exact if_neg (by omega)
      have hother : cellFaceOther (chainGrid N) (N - 1) (N - 2) = ((N - 2 : ℕ) : ℤ) := by
        rw [chain_cellFaceOther]
        exact if_neg (by omega)
      rw [hflux, hother]
      have hsrc : chainSrc N q (N - 1) = -q := by
        unfold chainSrc
        rw [if_neg (by omega), if_pos rfl]
      rw [hsrc, neg_neg, max_eq_left hq.le]
      have hidx : N - 1 - 1 = N - 2 := by omega
      simp only [hidx, Int.toNat_natCast]
      rw [TofState.mk.injEq]
      refine ⟨?_, by simp [show ((N - 2 : ℕ) : ℤ) ≠ -1 by omega,
        show -q < 0 by linarith]⟩
      simp [show ((N - 2 : ℕ) : ℤ) ≠ -1 by omega, show -q < 0 by linarith, hm0]
      congr 1
      field_simp
      ring
    · have h1m : 1 ≤ m := by omega
      have h2m : m ≤ N - 2 := by omega
      simp only [solveSingleCell]
      rw [chain_halfFaces_mid N m h1m h2m hN]
      simp only [List.foldl_cons, List.foldl_nil, singleCellFaceStep]
      have hcf1 : (chainGrid N).cell_faces (2 * m - 1) = m - 1 := by
        show (2 * m - 1) / 2 = m - 1
        omega
      have hcf2 : (chainGrid N).cell_faces (2 * m) = m := by
        show (2 * m) / 2 = m
        omega
      rw [hcf1, hcf2]
      have hflux1 : cellFaceFlux (chainGrid N) (fun _ => q) m (m - 1) = -q := by
        rw [chain_cellFaceFlux]
        exact if_neg (by omega)
      have hother1 : cellFaceOther (chainGrid N) m (m - 1) = ((m - 1 : ℕ) : ℤ) := by
        rw [chain_cellFaceOther]
        exact if_neg (by omega)
      have hflux2 : cellFaceFlux (chainGrid N) (fun _ => q) m m = q := by
        rw [chain_cellFaceFlux]
        exact if_pos rfl
      have hother2 : cellFaceOther (chainGrid N) m m = ((m + 1 : ℕ) : ℤ) := by
        rw [chain_cellFaceOther]
        exact if_pos rfl
      rw [hflux1, hother1, hflux2, hother2]
      have hsrc : chainSrc N q m = 0 := by
        unfold chainSrc
        rw [if_neg hm0, if_neg hlast]
      rw [hsrc, neg_zero, max_self]
      simp only [Int.toNat_natCast]
      rw [TofState.mk.injEq]
      refine ⟨?_, by simp [show ((m - 1 : ℕ) : ℤ) ≠ -1 by omega,
        show ¬ ((m : ℤ) + 1 = -1) by omega, show ¬ ((1 : ℤ) + (m : ℤ) = -1) by omega,
        show -q < 0 by linarith, show ¬ q < 0 by linarith]⟩
      simp [show ((m - 1 : ℕ) : ℤ) ≠ -1 by omega,
        show ¬ ((m : ℤ) + 1 = -1) by omega, show ¬ ((1 : ℤ) + (m : ℤ) = -1) by omega,
        show -q < 0 by linarith, show ¬ q < 0 by linarith, hm0]
      congr 1
      field_simp
      ring


/-- The closed-form chain TOF: cumulative pore volume of cells
`0 .. i` divided by the through-flux. -/
def chainTofClosed (q : ℚ) (pv : ℕ → ℚ) (i : ℕ) : ℚ :=
  (((List.range (i + 1)).map pv).sum) / q

/-- One more cell adds its fill time. -/
theorem chainTofClosed_succ (q : ℚ) (pv : ℕ → ℚ) (i : ℕ) :
    chainTofClosed q pv (i + 1) = chainTofClosed q pv i + pv (i + 1) / q := by
  unfold chainTofClosed
  rw [List.range_succ, List.map_append, List.sum_append]
  simp [add_div]

/-- After processing chain cells `0 .. m-1` in order, every processed
cell carries the closed form, unprocessed cells are still zero, and
`face_tof_` is untouched. -/
theorem chain_fold_closed_form (N : ℕ) (q : ℚ) (pv : ℕ → ℚ) (ft : List ℚ)
    (hN : 2 ≤ N) (hq : 0 < q) :
    ∀ m, m ≤ N →
      ((List.range m).foldl
          (solveSingleCell (chainGrid N) (fun _ => q) pv (chainSrc N q) false)
          ⟨List.replicate N 0, ft⟩).face_tof = ft ∧
        ((List.range m).foldl
          (solveSingleCell (chainGrid N) (fun _ => q) pv (chainSrc N q) false)
          ⟨List.replicate N 0, ft⟩).tof.length = N ∧
        ∀ i, i < N →
          ((List.range m).foldl
            (solveSingleCell (chainGrid N) (fun _ => q) pv (chainSrc N q) false)
            ⟨List.replicate N 0, ft⟩).tof.getD i 0 =
            if i < m then chainTofClosed q pv i else 0 := by
  intro m
  induction m with
  | zero =>
    intro _
    refine ⟨rfl, by simp, ?_⟩
    intro i hi
    simp [List.getD_eq_getElem (List.replicate N (0 : ℚ)) 0 (by simpa using hi)]
  | succ m ih =>
    intro hmN
    obtain ⟨ihf, ihl, ihv⟩ := ih (by omega)
    rw [List.range_succ, List.foldl_append, List.foldl_cons, List.foldl_nil]
    set st := (List.range m).foldl
      (solveSingleCell (chainGrid N) (fun _ => q) pv (chainSrc N q) false)
      ⟨List.replicate N 0, ft⟩ with hst
    rw [chain_solveSingleCell N q pv st m hN hq (by omega)]
    have hval : pv m / q + (if m = 0 then 0 else st.tof.getD (m - 1) 0) =
        chainTofClosed q pv m := by
      by_cases hm0 : m = 0
      · subst hm0
        have hr1 : List.range 1 = [0] := rfl
        simp [chainTofClosed, hr1]
      · rw [if_neg hm0, ihv (m - 1) (by omega), if_pos (by omega)]
        have hm1 : m - 1 + 1 = m := by omega
        have := chainTofClosed_succ q pv (m - 1)
        rw [hm1] at this
        rw [this]
        ring
    refine ⟨ihf, by simpa using ihl, ?_⟩
    intro i hi
    have hlen : (st.tof.set m (pv m / q +
        (if m = 0 then 0 else st.tof.getD (m - 1) 0))).length = st.tof.length :=
      List.length_set st.tof m _
    rw [List.getD_eq_getElem _ 0 (by rw [hlen, ihl]; exact hi),
      List.getElem_set]
    by_cases him : m = i
    · subst him
      rw [if_pos rfl, if_pos (show m < m + 1 by omega)]
      exact hval
    · rw [if_neg him, ← List.getD_eq_getElem st.tof 0 (by rw [ihl]; exact hi),
        ihv i hi]
      by_cases hlt : i < m
      · rw [if_pos hlt, if_pos (show i < m + 1 by omega)]
      · rw [if_neg hlt, if_neg (show ¬ i < m + 1 by omega)]


/-- On the chain, cell `j`'s row of the upwind graph contains its
upstream neighbour `j - 1`. -/
theorem chain_edge (N : ℕ) (q : ℚ) (j : ℕ) (hN : 2 ≤ N) (hq : 0 < q)
    (h1 : 1 ≤ j) (h2 : j < N) :
    ((j - 1 : ℕ) : ℤ) ∈
      (make_upwind_graph (chainGrid N) (fun _ => q) (fun _ => 0)).getD j [] := by
  rw [make_upwind_graph_getD (chainGrid N) (fun _ => q) (fun _ => 0) j h2,
    mem_upwindGraphRow]
  have hmem : j - 1 ∈ cellFaceList (chainGrid N) j := by
    unfold cellFaceList
    by_cases hl : j = N - 1
    · subst hl
      rw [chain_halfFaces_last N hN]
      have hcf : (chainGrid N).cell_faces (2 * (N - 1) - 1) = N - 2 := by
        show (2 * (N - 1) - 1) / 2 = N - 2
        omega
      simp only [List.map_cons, List.map_nil, hcf, List.mem_singleton]
      omega
    · rw [chain_halfFaces_mid N j h1 (by omega) hN]
      have hcf1 : (chainGrid N).cell_faces (2 * j - 1) = j - 1 := by
        show (2 * j - 1) / 2 = j - 1
        omega
      simp [hcf1]
  have hb : ¬ boundaryFace (chainGrid N) (j - 1) := by
    unfold boundaryFace
    rw [chain_face_cells_fst, chain_face_cells_snd]
    rintro (h | h) <;> omega
  have hneg : cellFaceFlux (chainGrid N) (fun _ => q) j (j - 1) < 0 := by
    rw [chain_cellFaceFlux, if_neg (by omega)]
    linarith
  have hwrite : writesUpwind (chainGrid N) (fun _ => q) (j - 1) (j - 1) := by
    constructor
    · unfold cellFaceList
      by_cases hz : j - 1 = 0
      · rw [hz, chain_halfFaces_zero N hN]
        simp [show (chainGrid N).cell_faces 0 = 0 from rfl, hz]
      · rw [chain_halfFaces_mid N (j - 1) (by omega) (by omega) hN]
        have hcf2 : (chainGrid N).cell_faces (2 * (j - 1)) = j - 1 := by
          show (2 * (j - 1)) / 2 = j - 1
          omega
        simp [hcf2]
    · rw [chain_cellFaceFlux, if_pos rfl]
      exact hq
  have hall : ∀ c ∈ List.range (chainGrid N).number_of_cells,
      writesUpwind (chainGrid N) (fun _ => q) c (j - 1) → c = j - 1 := by
    intro c _ hw
    have hp := hw.2
    rw [chain_cellFaceFlux] at hp
    by_cases hcf : c = j - 1
    · exact hcf
    · rw [if_neg hcf] at hp
      linarith
  refine ⟨j - 1, hmem, hb, hneg, ?_⟩
  unfold upwindWorkArray
  rw [outerPass_unique (chainGrid N) (fun _ => q) (j - 1) (j - 1)
    (List.range (chainGrid N).number_of_cells) (fun _ => 0) hall,
    if_pos ⟨List.mem_range.mpr (show j - 1 < N by omega), hwrite⟩]

/-- The only permutation of `0 .. N-1` in which every cell comes after
its chain predecessor is the identity order. -/
theorem seq_eq_range (N : ℕ) (seq : List ℕ) (hlen : seq.length = N)
    (hmem : ∀ i, i < N → i ∈ seq) (_hnd : seq.Nodup)
    (hinc : ∀ j, 1 ≤ j → j < N → List.indexOf (j - 1) seq < List.indexOf j seq) :
    seq = List.range N := by
  have hup : ∀ i, i < N → i ≤ List.indexOf i seq := by
    intro i
    induction i with
    | zero => intro _; omega
    | succ k ihk =>
      intro hk
      have ha := ihk (by omega)
      have hbb := hinc (k + 1) (by omega) hk
      have hc : k + 1 - 1 = k := by omega
      rw [hc] at hbb
      omega
  have hdown : ∀ d i, i + d = N - 1 → i < N → List.indexOf i seq ≤ i := by
    intro d
    induction d with
    | zero =>
      intro i hi hiN
      have hlt : List.indexOf i seq < N := by
        rw [← hlen]
        exact List.indexOf_lt_length.mpr (hmem i hiN)
      omega
    | succ k ihk =>
      intro i hi hiN
      have hnext := ihk (i + 1) (by omega) (by omega)
      have hbb := hinc (i + 1) (by omega) (by omega)
      have hc : i + 1 - 1 = i := by omega
      rw [hc] at hbb
      omega
  have hidx : ∀ i, i < N → List.indexOf i seq = i := by
    intro i hi
    have hd := hdown (N - 1 - i) i (by omega) hi
    have hu := hup i hi
    omega
  refine List.ext_getElem (by rw [hlen, List.length_range]) ?_
  intro n h1 h2
  have hn : n < N := by rw [← hlen]; exact h1
  have h3 : List.indexOf n seq < seq.length := by
    rw [hidx n hn, hlen]
    exact hn
  have h4 := List.getElem_indexOf h3
  simp only [hidx n hn] at h4
  rw [List.getElem_range]
  exact h4

/-- A sequence of singleton components drives the reorder loop through
`solveSingleCell` only. -/
theorem reorderAndTransport_singletons (g : UnstructuredGrid) (flux pv src : ℕ → ℚ)
    (md : Bool) :
    ∀ (L : List ℕ) (st : TofState),
      reorderAndTransport g flux pv src md (L.map (fun c => [c])) st =
        L.foldl (solveSingleCell g flux pv src md) st := by
  intro L
  induction L with
  | nil => intro st; rfl
  | cons c L ih =>
    intro st
    simp only [List.map_cons, reorderAndTransport, List.foldl_cons]
    exact ih (solveSingleCell g flux pv src md st c)

/-- C8: on the `N`-cell chain with source at one end, sink at the other,
uniform positive flux and positive pore volumes, the TOF values produced
by processing the cells in any dependency-respecting order (the order the
decomposer must emit) increase strictly from the source end to the sink
end. -/
theorem chain_tof_strict_mono (N : ℕ) (q : ℚ) (pv : ℕ → ℚ) (seq : List ℕ)
    (hN : 2 ≤ N) (hq : 0 < q) (hpv : ∀ i, i < N → 0 < pv i)
    (hlen : seq.length = N) (hmem : ∀ i, i < N → i ∈ seq) (hnd : seq.Nodup)
    (hdeps : seqRespectsDeps (chainGrid N) (fun _ => q) seq)
    (i : ℕ) (hi : i + 1 < N) :
    (reorderAndTransport (chainGrid N) (fun _ => q) pv (chainSrc N q) false
        (seq.map (fun c => [c])) ⟨List.replicate N 0, []⟩).tof.getD i 0 <
      (reorderAndTransport (chainGrid N) (fun _ => q) pv (chainSrc N q) false
        (seq.map (fun c => [c])) ⟨List.replicate N 0, []⟩).tof.getD (i + 1) 0 := by
  have hseqr : seq = List.range N := by
    apply seq_eq_range N seq hlen hmem hnd
    intro j hj1 hjN
    have hedge := chain_edge N q j hN hq hj1 hjN
    have hstep := hdeps j (show j < (chainGrid N).number_of_cells from hjN) _ hedge
    rwa [Int.toNat_natCast] at hstep
  subst hseqr
  rw [reorderAndTransport_singletons]
  obtain ⟨-, -, hv⟩ := chain_fold_closed_form N q pv [] hN hq N le_rfl
  rw [hv i (by omega), hv (i + 1) hi, if_pos (by omega), if_pos (by omega),
    chainTofClosed_succ]
  have hgt : 0 < pv (i + 1) / q := div_pos (hpv (i + 1) hi) hq
  linarith


attribute [local semireducible] Rat.add Rat.sub Rat.mul Rat.inv in
/-- Witness for the chain monotonicity on a 4-cell chain with unit flux
and unit pore volumes, in the unique dependency-respecting order. -/
theorem chain_tof_strict_mono_witness :
    (reorderAndTransport (chainGrid 4) (fun _ => (1 : ℚ)) (fun _ => 1) (chainSrc 4 1)
        false ([0, 1, 2, 3].map (fun c => [c])) ⟨List.replicate 4 0, []⟩).tof.getD 1 0 <
      (reorderAndTransport (chainGrid 4) (fun _ => (1 : ℚ)) (fun _ => 1) (chainSrc 4 1)
        false ([0, 1, 2, 3].map (fun c => [c])) ⟨List.replicate 4 0, []⟩).tof.getD 2 0 :=
  chain_tof_strict_mono 4 1 (fun _ => 1) [0, 1, 2, 3] (by decide) (by decide)
    (by decide) (by decide) (by decide) (by decide) (by decide) 1 (by decide)

end Opm
